import Mathlib

set_option autoImplicit false

/-!
Shallow embedding of `src/SerialCommand.cpp` (Arduino-SerialCommand).

The C++ class `SerialCommand` accumulates serial bytes into a bounded line
buffer (`readSerial`), tokenizes a completed line with `strtok_r`, filters the
command by a device-type identifier and dispatches to a registered handler
(`processCommand`, `lookupCommandByName`, `runCommand`), and drives a
half-duplex RS-485 transmit sequence (`sendData`).

Modelling choices:
* Bytes are `Char` (the wire carries 8-bit values; `isprint` classifies the
  ASCII printable range 0x20..0x7E exactly as avr-libc's `isprint` does).
* The char array `_buffer` is modelled as unbounded memory `Nat → Char`
  together with the index `_bufPos`, so that the absence of writes outside the
  `SERIALCOMMAND_BUFFER + 1` cells owned by the array is an expressible fact.
* The compile-time constant `SERIALCOMMAND_BUFFER` lives in the header, which
  is not part of the sources given; all results are proved for an arbitrary
  capacity `cap`, hence hold for whatever value the header fixes.
* The serial port is modelled as the list of bytes it still holds; one call of
  `readSerial` consumes bytes until the terminator or exhaustion and returns
  (new state, int return value, bytes left in the port).
* Tokenization (`strtok_r` with the one-character delimiter set `_delim`) is
  modelled at the value level on the character list of the line: each call
  returns the token found (or `none`) and the remaining characters after the
  delimiter it consumed, which models the saved pointer `_last`.
* Handlers are opaque identifiers (`Nat`); dispatch returns the list of
  handler invocations it performs, the observable of interest.  A call of
  `strcmp` whose first argument is the NULL token is undefined behavior in C;
  the model makes it the explicit outcome `nullDeref`.
-/

namespace SC

/-- The null character, terminator of C strings inside `_buffer`. -/
def nullChar : Char := Char.ofNat 0

/-- C `isprint` in the C/ASCII locale (avr-libc): codes 0x20 to 0x7E. -/
def isprint (c : Char) : Bool := decide (32 ≤ c.toNat) && decide (c.toNat ≤ 126)

/-- State of the line buffer: `arr` models the char array `_buffer` as
unbounded memory, `bufPos` models the member `_bufPos`. -/
structure Buf where
  arr : Nat → Char
  bufPos : Nat

/-- One store into buffer memory, `_buffer[i] = c`. -/
def updArr (f : Nat → Char) (i : Nat) (c : Char) : Nat → Char :=
  fun j => if j = i then c else f j

/-- The two-line store step shared by `readSerial` (lines 133-134) and
`setBuffer` (lines 181-182): `_buffer[_bufPos++] = inChar;
_buffer[_bufPos] = '\0';`. -/
def storeChar (b : Buf) (c : Char) : Buf :=
  { arr := updArr (updArr b.arr b.bufPos c) (b.bufPos + 1) nullChar
    bufPos := b.bufPos + 1 }

/-- The body of `readSerial`'s while loop for one non-terminator byte
(lines 131-141): printable bytes are stored while `_bufPos <
SERIALCOMMAND_BUFFER`, a store into a full buffer resets `_bufPos` to 0,
and non-printable bytes are discarded. -/
def procChar (cap : Nat) (b : Buf) (c : Char) : Buf :=
  if isprint c then
    if b.bufPos < cap then storeChar b c
    else { b with bufPos := 0 }
  else b

/-- Folding the loop body over a byte sequence none of which is the
terminator. -/
def feedAll (cap : Nat) (b : Buf) (cs : List Char) : Buf :=
  cs.foldl (procChar cap) b

/-- `SerialCommand::readSerial` (lines 114-144) run on the bytes the port
holds: reads until the terminator (returning `_bufPos` and leaving the rest
in the port) or until exhaustion (returning 0). -/
def readSerial (cap : Nat) (term : Char) (b : Buf) : List Char → Buf × Nat × List Char
  | [] => (b, 0, [])
  | c :: rest =>
    if c = term then (b, b.bufPos, rest)
    else readSerial cap term (procChar cap b c) rest

/-- `SerialCommand::clearBuffer` (lines 198-201): `_buffer[0] = '\0';
_bufPos = 0;`. -/
def clearBuffer (b : Buf) : Buf :=
  { arr := updArr b.arr 0 nullChar, bufPos := 0 }

/-- The live contents of the buffer: the characters below `_bufPos`. -/
def contents (b : Buf) : List Char :=
  (List.range b.bufPos).map b.arr

/-- The while loop of `SerialCommand::setBuffer` (lines 175-192): stops at
the terminating null of the argument string or at the command terminator,
stores printable characters, and returns (truncating) when the buffer is
full. -/
def setBufferLoop (cap : Nat) (term : Char) (b : Buf) : List Char → Buf
  | [] => b
  | c :: rest =>
    if c = nullChar then b
    else if c = term then b
    else if isprint c then
      if b.bufPos < cap then setBufferLoop cap term (storeChar b c) rest
      else b
    else setBufferLoop cap term b rest

/-- `SerialCommand::setBuffer` (lines 171-193): clears the buffer, then runs
the copying loop on the characters of `text_line`. -/
def setBuffer (cap : Nat) (term : Char) (b : Buf) (text : List Char) : Buf :=
  setBufferLoop cap term (clearBuffer b) text

/-- Handlers (the function pointers `void (*)(SerialCommand)`) are opaque
identifiers; `none` models a NULL pointer. -/
abbrev Handler := Nat

/-- The struct `CommandInfo` as stored in `_commandList` by `addCommand`:
a name and the handler pointer. -/
structure CommandInfo where
  name : List Char
  function : Option Handler
deriving DecidableEq

/-- The member `_current_command` (and `_default_command`): its `name` field
is `none` while unset. -/
structure CurrentCmd where
  name : Option (List Char)
  function : Option Handler
deriving DecidableEq

/-- The registry part of a `SerialCommand` instance: `_commandList` with
`_commandCount` entries, and `_default_command.function`. -/
structure Registry where
  commandList : List CommandInfo
  defaultFun : Option Handler
deriving DecidableEq

/-- One call of `strtok_r(·, _delim, &_last)` where `_delim` is the
one-character string holding `delim`: operating on the characters `s` that
`_last` points at, it skips leading delimiters, returns `none` if nothing is
left, and otherwise returns the token up to the next delimiter together with
the characters after that delimiter (the new `_last`). -/
def strtokR (delim : Char) (s : List Char) : Option (List Char) × List Char :=
  match s.dropWhile (fun c => c = delim) with
  | [] => (none, [])
  | c :: r =>
    let tok := (c :: r).takeWhile (fun c => ¬(c = delim))
    (some tok, ((c :: r).dropWhile (fun c => ¬(c = delim))).drop 1)

/-- `SerialCommand::next` (lines 207-209): `strtok_r(NULL, _delim, &_last)`,
i.e. one more token from the saved position. -/
def next (delim : Char) (rest : List Char) : Option (List Char) × List Char :=
  strtokR delim rest

/-- The for loop of `lookupCommandByName` (lines 66-94) over the entries of
`_commandList`, given a non-NULL `name`: first `strcmp` match wins and
becomes `_current_command`; if no entry matches, `_current_command` is the
default handler carrying the looked-up name. -/
def lookupLoop (defaultFun : Option Handler) (n : List Char) : List CommandInfo → CurrentCmd
  | [] => { name := some n, function := defaultFun }
  | ci :: rest =>
    if ci.name = n then { name := some ci.name, function := ci.function }
    else lookupLoop defaultFun n rest

/-- `SerialCommand::lookupCommandByName` (lines 63-96): a NULL name leaves
`_current_command` unchanged; otherwise the linear scan runs. -/
def lookupCommandByName (reg : Registry) (cur : CurrentCmd) (name : Option (List Char)) : CurrentCmd :=
  match name with
  | none => cur
  | some n => lookupLoop reg.defaultFun n reg.commandList

/-- `SerialCommand::runCommand` (lines 99-105): invokes the stored handler
if it is non-NULL.  The result is the list of handler invocations. -/
def runCommand (cur : CurrentCmd) : List Handler :=
  match cur.function with
  | some f => [f]
  | none => []

/-- Result of one `processCommand` call: either the list of handler
invocations performed, the remaining characters for later `next` calls (the
saved `_last`), and the final `_current_command`; or `nullDeref`, the
undefined behavior of `strcmp(identifier, _device_type)` when the second
`strtok_r` call returned NULL. -/
inductive PCOutcome where
  | ok (invoked : List Handler) (rest : List Char) (cur : CurrentCmd)
  | nullDeref
deriving DecidableEq

/-- `SerialCommand::processCommand` (lines 156-166) on a completed line:
token one is the command name, token two the device identifier; the guard
`_device_type && strcmp(identifier, _device_type) == 0` short-circuits when
`_device_type` is NULL, and otherwise evaluates `strcmp` on `identifier` —
reading through it even when it is NULL.  On a match it looks up the name
and runs the resolved handler.  (The trailing `clearBuffer` acts on the
buffer state and is modelled by `clearBuffer`.) -/
def processCommand (reg : Registry) (cur : CurrentCmd) (deviceType : Option (List Char))
    (delim : Char) (line : List Char) : PCOutcome :=
  let p1 := strtokR delim line
  let p2 := strtokR delim p1.2
  match deviceType with
  | none => PCOutcome.ok [] p2.2 cur
  | some dt =>
    match p2.1 with
    | none => PCOutcome.nullDeref
    | some idf =>
      if idf = dt then
        let cur2 := lookupCommandByName reg cur p1.1
        PCOutcome.ok (runCommand cur2) p2.2 cur2
      else PCOutcome.ok [] p2.2 cur

/-- The parts of a `SerialCommand` instance that `clearBuffer` could touch:
the buffer, the tokenizer cursor `_last` (as the remaining characters it
points at), and `_current_command`. -/
structure SCState where
  buf : Buf
  last : List Char
  cur : CurrentCmd

/-- `clearBuffer` acting on the whole instance: per lines 198-201 it writes
only `_buffer[0]` and `_bufPos`. -/
def clearBufferS (s : SCState) : SCState :=
  { s with buf := clearBuffer s.buf }

/-- Observable effects of the transmit path of `sendData`: direction-pin
writes, busy-wait delays, single bytes written to `_port`, the flush, and
the trailing diagnostic println on `Serial`. -/
inductive TxEvent where
  | digWrite (pin : Nat) (high : Bool)
  | delayMicros (us : Nat)
  | portWrite (c : Char)
  | portFlush
  | serialLog (msg : List Char)
deriving DecidableEq

/-- `_port.print(message)` writes the bytes of the string in order. -/
def printStr (msg : List Char) : List TxEvent :=
  msg.map TxEvent.portWrite

/-- `_port.print(writeDelimiter)` writes the single character. -/
def printChar (c : Char) : List TxEvent :=
  [TxEvent.portWrite c]

/-- `SerialCommand::sendData` (lines 218-232): direction pin high, settle
delay, message, delimiter, flush, settle delay, direction pin low, then the
diagnostic `Serial.println(message)`. -/
def sendData (writeEnablePin : Nat) (message : List Char) (writeDelimiter : Char) : List TxEvent :=
  [TxEvent.digWrite writeEnablePin true] ++
  [TxEvent.delayMicros 500] ++
  printStr message ++
  printChar writeDelimiter ++
  [TxEvent.portFlush] ++
  [TxEvent.delayMicros 500] ++
  [TxEvent.digWrite writeEnablePin false] ++
  [TxEvent.serialLog message]

/-- The characters of the argument of `setBuffer` before its terminating null
or the command terminator: all the copying loop can ever store from. -/
def preTerm (term : Char) (text : List Char) : List Char :=
  text.takeWhile (fun c => !decide (c = nullChar) && !decide (c = term))

/-- A concrete buffer state (stale memory, nonzero position) for witnesses. -/
def demoBuf : Buf := { arr := fun _ => 'x', bufPos := 5 }

/-- A concrete registry: one command OPEN with handler 1, default handler 9. -/
def demoRegistry : Registry :=
  { commandList := [{ name := "OPEN".data, function := some 1 }], defaultFun := some 9 }

/-- A registry holding a duplicated name, exercising first-match-wins. -/
def dupRegistry : Registry :=
  { commandList :=
      [{ name := "OPEN".data, function := some 2 },
       { name := "OPEN".data, function := some 3 },
       { name := "SHUT".data, function := some 4 }]
    defaultFun := some 9 }

/-- The unset current command (as after construction). -/
def cur0 : CurrentCmd := { name := none, function := none }

/-- The spec's tokenization example line. -/
def demoLine : List Char := "OPEN DEV1 arg1 arg2".data

theorem updArr_self (f : Nat → Char) (i : Nat) (c : Char) : updArr f i c i = c := by
  simp [updArr]

theorem updArr_other (f : Nat → Char) (i : Nat) (c : Char) (j : Nat) (h : ¬(j = i)) :
    updArr f i c j = f j := by
  simp [updArr, h]

theorem contents_length (b : Buf) : (contents b).length = b.bufPos := by
  simp [contents]

theorem contents_storeChar (b : Buf) (c : Char) :
    contents (storeChar b c) = contents b ++ [c] := by
  unfold contents storeChar
  rw [List.range_succ, List.map_append]
  congr 1
  · apply List.map_congr_left
    intro j hj
    have hj2 : j < b.bufPos := List.mem_range.mp hj
    show updArr (updArr b.arr b.bufPos c) (b.bufPos + 1) nullChar j = b.arr j
    rw [updArr_other _ _ _ _ (by omega), updArr_other _ _ _ _ (by omega)]
  · show List.map (updArr (updArr b.arr b.bufPos c) (b.bufPos + 1) nullChar) [b.bufPos] = [c]
    rw [List.map_cons, List.map_nil, updArr_other _ _ _ _ (by omega), updArr_self]

theorem storeChar_terminated (b : Buf) (c : Char) :
    (storeChar b c).arr (storeChar b c).bufPos = nullChar := by
  show updArr (updArr b.arr b.bufPos c) (b.bufPos + 1) nullChar (b.bufPos + 1) = nullChar
  exact updArr_self _ _ _

theorem clearBuffer_terminated (b : Buf) : (clearBuffer b).arr 0 = nullChar := by
  show updArr b.arr 0 nullChar 0 = nullChar
  exact updArr_self _ _ _

theorem contents_clearBuffer (b : Buf) : contents (clearBuffer b) = [] := rfl

theorem feedAll_cons (cap : Nat) (b : Buf) (c : Char) (cs : List Char) :
    feedAll cap b (c :: cs) = feedAll cap (procChar cap b c) cs := rfl

theorem procChar_store (cap : Nat) (b : Buf) (c : Char) (h1 : isprint c = true)
    (h2 : b.bufPos < cap) : procChar cap b c = storeChar b c := by
  simp [procChar, h1, h2]

theorem procChar_reset (cap : Nat) (b : Buf) (c : Char) (h1 : isprint c = true)
    (h2 : ¬b.bufPos < cap) : procChar cap b c = { b with bufPos := 0 } := by
  simp [procChar, h1, h2]

theorem procChar_skip (cap : Nat) (b : Buf) (c : Char) (h1 : isprint c = false) :
    procChar cap b c = b := by
  simp [procChar, h1]

theorem feedAll_spec (cap : Nat) :
    ∀ (cs : List Char) (b : Buf), b.bufPos + (cs.filter isprint).length ≤ cap →
      contents (feedAll cap b cs) = contents b ++ cs.filter isprint ∧
      (feedAll cap b cs).bufPos = b.bufPos + (cs.filter isprint).length ∧
      (b.arr b.bufPos = nullChar →
        (feedAll cap b cs).arr (feedAll cap b cs).bufPos = nullChar) := by
  intro cs
  induction cs with
  | nil => intro b h; exact ⟨by simp [feedAll, contents], by simp [feedAll], fun h2 => h2⟩
  | cons c cs ih =>
    intro b h
    by_cases hp : isprint c = true
    · have hlen : (List.filter isprint (c :: cs)).length = (List.filter isprint cs).length + 1 := by
        simp [List.filter_cons, hp]
      have hlt : b.bufPos < cap := by omega
      rw [feedAll_cons, procChar_store cap b c hp hlt]
      have hstep : (storeChar b c).bufPos = b.bufPos + 1 := rfl
      obtain ⟨ih1, ih2, ih3⟩ := ih (storeChar b c) (by rw [hstep]; omega)
      refine ⟨?_, ?_, fun _ => ih3 (storeChar_terminated b c)⟩
      · rw [ih1, contents_storeChar]
        simp [List.filter_cons, hp]
      · rw [ih2, hstep, hlen]; omega
    · have hp2 : isprint c = false := by revert hp; cases isprint c <;> simp
      have hlen : List.filter isprint (c :: cs) = List.filter isprint cs := by
        simp [List.filter_cons, hp2]
      rw [feedAll_cons, procChar_skip cap b c hp2]
      rw [hlen] at h
      obtain ⟨ih1, ih2, ih3⟩ := ih b h
      exact ⟨by rw [ih1, hlen], by rw [ih2, hlen], ih3⟩

theorem readSerial_no_term (cap : Nat) (term : Char) :
    ∀ (cs : List Char) (b : Buf), term ∉ cs →
      readSerial cap term b cs = (feedAll cap b cs, 0, []) := by
  intro cs
  induction cs with
  | nil => intro b _; rfl
  | cons c cs ih =>
    intro b h
    have hc : ¬(c = term) := fun e => h (by simp [e])
    rw [readSerial, if_neg hc, feedAll_cons]
    exact ih _ (fun m => h (List.mem_cons_of_mem _ m))

theorem readSerial_append (cap : Nat) (term : Char) :
    ∀ (cs : List Char) (b : Buf) (more : List Char), term ∉ cs →
      readSerial cap term b (cs ++ term :: more) =
        (feedAll cap b cs, (feedAll cap b cs).bufPos, more) := by
  intro cs
  induction cs with
  | nil => intro b more _; simp [readSerial, feedAll]
  | cons c cs ih =>
    intro b more h
    have hc : ¬(c = term) := fun e => h (by simp [e])
    rw [List.cons_append, readSerial, if_neg hc, feedAll_cons]
    exact ih _ more (fun m => h (List.mem_cons_of_mem _ m))

theorem procChar_bufPos_le (cap : Nat) (b : Buf) (c : Char) (h : b.bufPos ≤ cap) :
    (procChar cap b c).bufPos ≤ cap := by
  unfold procChar storeChar
  by_cases hp : isprint c = true
  · by_cases hlt : b.bufPos < cap
    · simp only [hp, hlt, if_true]; omega
    · simp [hp, hlt]
  · have hp2 : isprint c = false := by revert hp; cases isprint c <;> simp
    simp [hp2, h]

theorem procChar_arr_high (cap : Nat) (b : Buf) (c : Char) (j : Nat)
    (_hb : b.bufPos ≤ cap) (hj : cap + 1 ≤ j) : (procChar cap b c).arr j = b.arr j := by
  unfold procChar storeChar
  by_cases hp : isprint c = true
  · by_cases hlt : b.bufPos < cap
    · simp only [hp, hlt, if_true]
      rw [updArr_other _ _ _ _ (by omega), updArr_other _ _ _ _ (by omega)]
    · simp [hp, hlt]
  · have hp2 : isprint c = false := by revert hp; cases isprint c <;> simp
    simp [hp2]

theorem feedAll_bufPos_le (cap : Nat) :
    ∀ (cs : List Char) (b : Buf), b.bufPos ≤ cap → (feedAll cap b cs).bufPos ≤ cap := by
  intro cs
  induction cs with
  | nil => intro b h; exact h
  | cons c cs ih =>
    intro b h
    rw [feedAll_cons]
    exact ih _ (procChar_bufPos_le cap b c h)

theorem feedAll_arr_high (cap : Nat) :
    ∀ (cs : List Char) (b : Buf) (j : Nat), b.bufPos ≤ cap → cap + 1 ≤ j →
      (feedAll cap b cs).arr j = b.arr j := by
  intro cs
  induction cs with
  | nil => intro b j _ _; rfl
  | cons c cs ih =>
    intro b j hb hj
    rw [feedAll_cons, ih _ j (procChar_bufPos_le cap b c hb) hj,
      procChar_arr_high cap b c j hb hj]

theorem readSerial_state_le (cap : Nat) (term : Char) :
    ∀ (cs : List Char) (b : Buf), b.bufPos ≤ cap →
      (readSerial cap term b cs).1.bufPos ≤ cap := by
  intro cs
  induction cs with
  | nil => intro b h; exact h
  | cons c cs ih =>
    intro b h
    rw [readSerial]
    by_cases hc : c = term
    · simp [hc, h]
    · rw [if_neg hc]
      exact ih _ (procChar_bufPos_le cap b c h)

theorem setBufferLoop_go (cap : Nat) (term : Char) :
    ∀ (text : List Char) (b : Buf), b.arr b.bufPos = nullChar →
      contents (setBufferLoop cap term b text) =
        contents b ++ ((preTerm term text).filter isprint).take (cap - b.bufPos) ∧
      (setBufferLoop cap term b text).arr (setBufferLoop cap term b text).bufPos =
        nullChar := by
  intro text
  induction text with
  | nil => intro b hb; exact ⟨by simp [setBufferLoop, preTerm], hb⟩
  | cons c rest ih =>
    intro b hb
    by_cases h0 : c = nullChar
    · rw [setBufferLoop, if_pos h0]
      refine ⟨?_, hb⟩
      have : preTerm term (c :: rest) = [] := by simp [preTerm, List.takeWhile, h0]
      simp [this]
    · by_cases ht : c = term
      · rw [setBufferLoop, if_neg h0, if_pos ht]
        refine ⟨?_, hb⟩
        have : preTerm term (c :: rest) = [] := by simp [preTerm, List.takeWhile, h0, ht]
        simp [this]
      · have hpre : preTerm term (c :: rest) = c :: preTerm term rest := by
          simp [preTerm, List.takeWhile, h0, ht]
        by_cases hp : isprint c = true
        · by_cases hlt : b.bufPos < cap
          · rw [setBufferLoop, if_neg h0, if_neg ht, if_pos hp, if_pos hlt]
            obtain ⟨ih1, ih2⟩ := ih (storeChar b c) (storeChar_terminated b c)
            refine ⟨?_, ih2⟩
            rw [ih1, contents_storeChar, hpre]
            have hcap : cap - b.bufPos = (cap - (storeChar b c).bufPos) + 1 := by
              show cap - b.bufPos = (cap - (b.bufPos + 1)) + 1
              omega
            rw [hcap]
            simp [List.filter_cons, hp, List.take_succ_cons]
          · rw [setBufferLoop, if_neg h0, if_neg ht, if_pos hp, if_neg hlt]
            refine ⟨?_, hb⟩
            have hz : cap - b.bufPos = 0 := by omega
            rw [hpre, hz]
            simp [List.filter_cons, hp]
        · have hp2 : isprint c = false := by revert hp; cases isprint c <;> simp
          rw [setBufferLoop, if_neg h0, if_neg ht, if_neg (by simp [hp2] : ¬(isprint c = true))]
          obtain ⟨ih1, ih2⟩ := ih b hb
          refine ⟨?_, ih2⟩
          rw [ih1, hpre]
          simp [List.filter_cons, hp2]

/-- C2: feeding a terminator-free byte sequence whose printable subset fits
the capacity through `readSerial`, one byte at a time, leaves the buffer
holding exactly the printable bytes in order, null-terminated; single bytes
are processed by exactly one loop step, non-printable non-terminator bytes
are discarded without changing anything, and a terminator byte arriving next
mutates nothing and makes `readSerial` return the buffer length. -/
theorem readSerial_accumulates (cap : Nat) (term : Char) (b0 : Buf) (cs more : List Char)
    (h1 : term ∉ cs) (h2 : (cs.filter isprint).length ≤ cap) :
    readSerial cap term (clearBuffer b0) cs = (feedAll cap (clearBuffer b0) cs, 0, []) ∧
    contents (feedAll cap (clearBuffer b0) cs) = cs.filter isprint ∧
    (feedAll cap (clearBuffer b0) cs).bufPos = (cs.filter isprint).length ∧
    (feedAll cap (clearBuffer b0) cs).arr (feedAll cap (clearBuffer b0) cs).bufPos =
      nullChar ∧
    (∀ (b : Buf) (c : Char), ¬(c = term) →
      readSerial cap term b [c] = (procChar cap b c, 0, [])) ∧
    (∀ (b : Buf) (c : Char), isprint c = false → procChar cap b c = b) ∧
    readSerial cap term (feedAll cap (clearBuffer b0) cs) (term :: more) =
      (feedAll cap (clearBuffer b0) cs, (feedAll cap (clearBuffer b0) cs).bufPos, more) := by
  obtain ⟨f1, f2, f3⟩ := feedAll_spec cap cs (clearBuffer b0)
    (by show 0 + (cs.filter isprint).length ≤ cap; omega)
  refine ⟨readSerial_no_term cap term cs _ h1, ?_, ?_,
    f3 (clearBuffer_terminated b0), ?_, ?_, ?_⟩
  · rw [f1, contents_clearBuffer, List.nil_append]
  · have e0 : (clearBuffer b0).bufPos = 0 := rfl
    rw [f2, e0]; omega
  · intro b c hc
    rw [readSerial, if_neg hc]; rfl
  · intro b c hp
    exact procChar_skip cap b c hp
  · rw [readSerial, if_pos rfl]

/-- C2 witness: four bytes, one of them non-printable, fed into a cleared
buffer of capacity 8 leave exactly the printable three. -/
theorem readSerial_accumulates_witness :
    ('\n' ∉ (['A', 'B', Char.ofNat 1, 'C'] : List Char)) ∧
    contents (feedAll 8 (clearBuffer demoBuf) ['A', 'B', Char.ofNat 1, 'C']) =
      List.filter isprint ['A', 'B', Char.ofNat 1, 'C'] :=
  ⟨by decide,
   (readSerial_accumulates 8 '\n' demoBuf ['A', 'B', Char.ofNat 1, 'C'] []
      (by decide) (by decide)).2.1⟩

/-- C3: for every input byte sequence the maintained buffer length never
exceeds the capacity, memory above the cap+1 cells of the array is never
written, the state `readSerial` leaves behind is bounded the same way, and a
printable byte arriving at a full buffer resets the length to zero with the
memory left as it was. -/
theorem readSerial_bounded (cap : Nat) (term : Char) (cs : List Char) (b : Buf)
    (h : b.bufPos ≤ cap) :
    (feedAll cap b cs).bufPos ≤ cap ∧
    (∀ j, cap + 1 ≤ j → (feedAll cap b cs).arr j = b.arr j) ∧
    (readSerial cap term b cs).1.bufPos ≤ cap ∧
    (∀ c, isprint c = true → b.bufPos = cap →
      procChar cap b c = { b with bufPos := 0 }) :=
  ⟨feedAll_bufPos_le cap cs b h,
   fun j hj => feedAll_arr_high cap cs b j h hj,
   readSerial_state_le cap term cs b h,
   fun c hc he => procChar_reset cap b c hc (by omega)⟩

/-- C3 witness: five printable bytes into a cleared buffer of capacity 2
leave the length within bound (the overflow reset fires). -/
theorem readSerial_bounded_witness :
    (clearBuffer demoBuf).bufPos ≤ 2 ∧
    (feedAll 2 (clearBuffer demoBuf) ("ABCDE".data)).bufPos ≤ 2 :=
  ⟨by decide,
   (readSerial_bounded 2 '\n' ("ABCDE".data) (clearBuffer demoBuf) (by decide)).1⟩

/-- C7: clearBuffer is idempotent on the instance state (so clearing twice,
or clearing after a dispatch cycle whose own final step is clearBuffer,
changes nothing further), and the state it leaves has length 0 and a null
terminator at buffer position 0. -/
theorem clearBuffer_idempotent (s : SCState) :
    clearBufferS (clearBufferS s) = clearBufferS s ∧
    (clearBufferS s).buf.bufPos = 0 ∧
    (clearBufferS s).buf.arr 0 = nullChar ∧
    contents (clearBufferS s).buf = [] := by
  refine ⟨?_, rfl, clearBuffer_terminated _, rfl⟩
  have h : clearBuffer (clearBuffer s.buf) = clearBuffer s.buf := by
    show ({ arr := updArr (updArr s.buf.arr 0 nullChar) 0 nullChar, bufPos := 0 } : Buf) =
      { arr := updArr s.buf.arr 0 nullChar, bufPos := 0 }
    congr 1
    funext j
    by_cases hj : j = 0
    · subst hj; rw [updArr_self, updArr_self]
    · rw [updArr_other _ _ _ _ hj, updArr_other _ _ _ _ hj]
  show ({ buf := clearBuffer (clearBuffer s.buf), last := s.last, cur := s.cur } : SCState) =
    { buf := clearBuffer s.buf, last := s.last, cur := s.cur }
  rw [h]

/-- C8: setBuffer applies the same printable filter and terminator stop rule
as byte-by-byte accumulation, but on overflow it truncates and stops: the
buffer retains exactly the first cap printable characters found before the
terminator (or end of string), stays null-terminated, and the loop returns
at once when a printable character meets a full buffer. -/
theorem setBuffer_truncates (cap : Nat) (term : Char) (b : Buf) (text : List Char) :
    contents (setBuffer cap term b text) =
      ((preTerm term text).filter isprint).take cap ∧
    (setBuffer cap term b text).bufPos =
      min cap ((preTerm term text).filter isprint).length ∧
    (setBuffer cap term b text).arr (setBuffer cap term b text).bufPos = nullChar ∧
    (∀ (b2 : Buf) (c : Char) (rest : List Char),
      isprint c = true → ¬(c = nullChar) → ¬(c = term) → cap ≤ b2.bufPos →
      setBufferLoop cap term b2 (c :: rest) = b2) := by
  obtain ⟨g1, g2⟩ := setBufferLoop_go cap term text (clearBuffer b) (clearBuffer_terminated b)
  have hc : contents (setBuffer cap term b text) =
      ((preTerm term text).filter isprint).take cap := by
    show contents (setBufferLoop cap term (clearBuffer b) text) = _
    rw [g1, contents_clearBuffer, List.nil_append]
    rfl
  refine ⟨hc, ?_, g2, ?_⟩
  · have h2 := congrArg List.length hc
    rw [contents_length] at h2
    rw [h2, List.length_take]
  · intro b2 c rest hp h0 ht hge
    rw [setBufferLoop, if_neg h0, if_neg ht, if_pos hp, if_neg (by omega)]

/-- C8 witness: a five-character string into a buffer of capacity 3 is
truncated to its first three characters. -/
theorem setBuffer_truncates_witness :
    contents (setBuffer 3 '\n' demoBuf ("ABCDE".data)) =
      ((preTerm '\n' ("ABCDE".data)).filter isprint).take 3 :=
  (setBuffer_truncates 3 '\n' demoBuf ("ABCDE".data)).1

/-- C10: readSerial returns the current buffer length when it reads a
terminator and 0 when the input runs out without one; a line that is just
the terminator yields 0 from a cleared buffer — the same value as when no
line completed at all. -/
theorem readSerial_return (cap : Nat) (term : Char) (b : Buf) (cs more : List Char)
    (h : term ∉ cs) :
    readSerial cap term b (cs ++ term :: more) =
      (feedAll cap b cs, (feedAll cap b cs).bufPos, more) ∧
    (readSerial cap term b cs).2.1 = 0 ∧
    (readSerial cap term (clearBuffer b) (term :: more)).2.1 = 0 ∧
    (readSerial cap term (clearBuffer b) (term :: more)).2.1 =
      (readSerial cap term (clearBuffer b) []).2.1 := by
  have h3 : (readSerial cap term (clearBuffer b) (term :: more)).2.1 = 0 := by
    rw [readSerial, if_pos rfl]; rfl
  refine ⟨readSerial_append cap term cs b more h, ?_, h3, h3⟩
  rw [readSerial_no_term cap term cs b h]

/-- C10 witness: a bare terminator from a cleared buffer returns 0. -/
theorem readSerial_return_witness :
    ('\n' ∉ (['A'] : List Char)) ∧
    (readSerial 8 '\n' (clearBuffer demoBuf) ('\n' :: ['B'])).2.1 = 0 :=
  ⟨by decide, (readSerial_return 8 '\n' demoBuf ['A'] ['B'] (by decide)).2.2.1⟩

theorem strtokR_fst_none (delim : Char) (s : List Char) :
    (strtokR delim s).1 = none ↔ s.dropWhile (fun c => decide (c = delim)) = [] := by
  unfold strtokR
  rcases h : s.dropWhile (fun c => decide (c = delim)) with _ | ⟨c, r⟩ <;> simp [h]

theorem lookupLoop_first (defaultFun : Option Handler) (n : List Char) :
    ∀ (l : List CommandInfo) (i : Nat) (h : i < l.length),
      (l.get ⟨i, h⟩).name = n → (∀ cj ∈ l.take i, ¬(cj.name = n)) →
      lookupLoop defaultFun n l = { name := some n, function := (l.get ⟨i, h⟩).function } := by
  intro l
  induction l with
  | nil => intro i h; exact absurd h (by simp)
  | cons ci rest ih =>
    intro i h hname hpre
    cases i with
    | zero =>
      have e : ci.name = n := hname
      rw [lookupLoop, if_pos e, e]
      rfl
    | succ i =>
      have hci : ¬(ci.name = n) :=
        hpre ci (by rw [List.take_succ_cons]; exact List.mem_cons_self _ _)
      rw [lookupLoop, if_neg hci]
      exact ih i (by simpa using h) hname
        (fun cj hcj => hpre cj (by rw [List.take_succ_cons]; exact List.mem_cons_of_mem _ hcj))

theorem lookupLoop_nomatch (defaultFun : Option Handler) (n : List Char) :
    ∀ (l : List CommandInfo), (∀ cj ∈ l, ¬(cj.name = n)) →
      lookupLoop defaultFun n l = { name := some n, function := defaultFun } := by
  intro l
  induction l with
  | nil => intro _; rfl
  | cons ci rest ih =>
    intro h
    rw [lookupLoop, if_neg (h ci (List.mem_cons_self _ _))]
    exact ih (fun cj hcj => h cj (List.mem_cons_of_mem _ hcj))

/-- C1 (refuted by the code): on a completed line with fewer than two tokens
and a configured device type, processCommand does not treat the comparison
as a deterministic non-match — it evaluates strcmp on the NULL identifier
token, reading through the absent token (undefined behavior), for every
registry, current command and configured device type. -/
theorem processCommand_null_identifier (reg : Registry) (cur : CurrentCmd) (dt : List Char) :
    processCommand reg cur (some dt) ' ' ("OPEN".data) = PCOutcome.nullDeref := rfl

/-- C4: with no device type configured, or with a present second token that
differs from the configured device type, processCommand invokes no handler
at all — neither a registered handler nor the default handler. -/
theorem processCommand_identity_filter (reg : Registry) (cur : CurrentCmd) (delim : Char)
    (line : List Char) :
    (processCommand reg cur none delim line =
      PCOutcome.ok [] (strtokR delim (strtokR delim line).2).2 cur) ∧
    ∀ (dt idf : List Char),
      (strtokR delim (strtokR delim line).2).1 = some idf → ¬(idf = dt) →
      processCommand reg cur (some dt) delim line =
        PCOutcome.ok [] (strtokR delim (strtokR delim line).2).2 cur := by
  constructor
  · rfl
  · intro dt idf hi hne
    unfold processCommand
    simp [hi, hne]

/-- C4 witness: device type DEV1 against line OPEN DEV2, and an unset device
type, both dispatch nothing. -/
theorem processCommand_identity_filter_witness :
    processCommand demoRegistry cur0 (some ("DEV1".data)) ' ' ("OPEN DEV2".data) =
      PCOutcome.ok [] [] cur0 ∧
    processCommand demoRegistry cur0 none ' ' ("OPEN DEV2".data) =
      PCOutcome.ok [] [] cur0 :=
  ⟨(processCommand_identity_filter demoRegistry cur0 ' ' ("OPEN DEV2".data)).2
      ("DEV1".data) ("DEV2".data) (by decide) (by decide),
   (processCommand_identity_filter demoRegistry cur0 ' ' ("OPEN DEV2".data)).1⟩

/-- C5: lookupCommandByName scans the registry front to back with exact
case-sensitive string equality and the first match wins; when no entry
matches, the resolved command is a synthesized binding carrying the default
handler together with the literal unmatched name; runCommand on a null
handler is a no-op. -/
theorem lookupCommand_resolution (reg : Registry) (cur : CurrentCmd) (n : List Char) :
    (∀ (i : Nat) (h : i < reg.commandList.length),
      (reg.commandList.get ⟨i, h⟩).name = n →
      (∀ cj ∈ reg.commandList.take i, ¬(cj.name = n)) →
      lookupCommandByName reg cur (some n) =
        { name := some n, function := (reg.commandList.get ⟨i, h⟩).function }) ∧
    ((∀ cj ∈ reg.commandList, ¬(cj.name = n)) →
      lookupCommandByName reg cur (some n) =
        { name := some n, function := reg.defaultFun }) ∧
    (∀ cur2 : CurrentCmd, cur2.function = none → runCommand cur2 = []) := by
  refine ⟨?_, ?_, ?_⟩
  · intro i h hname hpre
    exact lookupLoop_first reg.defaultFun n reg.commandList i h hname hpre
  · intro h
    exact lookupLoop_nomatch reg.defaultFun n reg.commandList h
  · intro cur2 h2
    simp [runCommand, h2]

/-- C5 witness: in a registry where OPEN is bound twice, the first binding
wins; an unregistered CLOSE resolves to the default handler carrying the
literal name CLOSE; a null handler runs nothing. -/
theorem lookupCommand_resolution_witness :
    lookupCommandByName dupRegistry cur0 (some ("OPEN".data)) =
      { name := some ("OPEN".data), function := some 2 } ∧
    lookupCommandByName dupRegistry cur0 (some ("CLOSE".data)) =
      { name := some ("CLOSE".data), function := some 9 } ∧
    runCommand { name := some ("CLOSE".data), function := none } = [] :=
  ⟨(lookupCommand_resolution dupRegistry cur0 ("OPEN".data)).1 0 (by decide)
      (by decide) (by decide),
   (lookupCommand_resolution dupRegistry cur0 ("CLOSE".data)).2.1 (by decide),
   (lookupCommand_resolution dupRegistry cur0 ("CLOSE".data)).2.2
      { name := some ("CLOSE".data), function := none } rfl⟩

/-- C6: tokenizing the line OPEN DEV1 arg1 arg2 with the space delimiter —
the first two tokens through processCommand's strtok_r calls, the rest
through next — yields OPEN, DEV1, arg1, arg2 and then none; dispatching that
line runs the OPEN handler and leaves exactly arg1 arg2 for next; and in
general next returns none exactly when only delimiter characters remain. -/
theorem tokenize_example :
    ((strtokR ' ' demoLine).1 = some ("OPEN".data) ∧
     (strtokR ' ' (strtokR ' ' demoLine).2).1 = some ("DEV1".data) ∧
     (next ' ' (strtokR ' ' (strtokR ' ' demoLine).2).2).1 = some ("arg1".data) ∧
     (next ' ' (next ' ' (strtokR ' ' (strtokR ' ' demoLine).2).2).2).1 =
       some ("arg2".data) ∧
     (next ' ' (next ' ' (next ' ' (strtokR ' ' (strtokR ' ' demoLine).2).2).2).2).1 =
       none ∧
     processCommand demoRegistry cur0 (some ("DEV1".data)) ' ' demoLine =
       PCOutcome.ok [1] ("arg1 arg2".data)
         { name := some ("OPEN".data), function := some 1 }) ∧
    ∀ (delim : Char) (s : List Char), (next delim s).1 = none ↔ ∀ c ∈ s, c = delim := by
  constructor
  · exact ⟨by decide, by decide, by decide, by decide, by decide, by decide⟩
  · intro delim s
    rw [next, strtokR_fst_none]
    simp [List.dropWhile_eq_nil_iff]

/-- C9: sendData produces its observable effects in a strict order that does
not depend on the payload: direction pin high, settle delay, the message
bytes in order, the delimiter byte, the flush, the second settle delay,
direction pin low (followed by the diagnostic log line). -/
theorem sendData_event_order (pin : Nat) (message : List Char) (d : Char) :
    sendData pin message d =
      TxEvent.digWrite pin true :: TxEvent.delayMicros 500 ::
        (message.map TxEvent.portWrite ++
          [TxEvent.portWrite d, TxEvent.portFlush, TxEvent.delayMicros 500,
           TxEvent.digWrite pin false, TxEvent.serialLog message]) := by
  simp [sendData, printStr, printChar]

end SC
